import Mathlib

/-!
# Verification of the BoutonCount detection pipeline

Shallow embedding of `src/BoutonCount.py` (GeerlingLab/BoutonCount).

Numeric modelling conventions:
* the pixel pipeline after loading works on `float32`/`float64` arrays; we
  model those values as real numbers (`ℝ`) for the smoothing/morphology
  stage and as rationals (`ℚ`) for the exact bookkeeping stages
  (normalisation, thresholding), ignoring floating-point rounding;
* `scipy.ndimage.gaussian_filter(·, sigma=1)` is the separable correlation
  with the normalised 9-tap kernel `exp(-k^2/2), k = -4..4` (scipy uses
  `radius = int(4.0*sigma + 0.5) = 4`), boundary mode `reflect`;
* `scipy.ndimage.grey_erosion(·, size=(4,4))` is the minimum over the
  window offsets `{-2,-1,0,1}` per axis (even-size window, origin 0), and
  `grey_dilation(·, size=(4,4))` the maximum over the mirrored offsets
  `{-1,0,1,2}` per axis (scipy shifts the origin for even sizes so that
  dilation uses the reflected footprint), both with mode `reflect`;
* machine integers appear only in the cached-CSV reload
  (`astype(np.int16)`), modelled by explicit reduction mod 2^16.
-/

namespace BoutonCount

/-- Wrap an integer into the `numpy.int16` range `[-2^15, 2^15)`,
modelling `astype(np.int16)`. -/
def toInt16 (z : ℤ) : ℤ := (z + 2 ^ 15) % 2 ^ 16 - 2 ^ 15

/-- Modelled from the spec: `Constants.py` (imported by the source but not
part of `src/`) provides the module-wide constants `RADIUS` and `SIZE`
with `SIZE = 2 * RADIUS`; the spec does not state the numeric value, so we
fix `RADIUS = 4`.  All border/patch theorems below are proved for an
arbitrary positive radius and only instantiated at this value. -/
def RADIUS : ℕ := 4

/-- Modelled from the spec: `SIZE = 2 * RADIUS` (patch side length). -/
def SIZE : ℕ := 2 * RADIUS

/-- Reflected index for scipy boundary mode `reflect` (`(d c b a | a b c d)`),
adequate for the offsets used here (`|offset| ≤ 4 ≤ n`). -/
def reflectIdx (n : ℕ) (k : ℤ) : ℤ :=
  if k < 0 then -k - 1 else if (n : ℤ) ≤ k then 2 * n - 1 - k else k

/-- Normalise one endpoint of a basic numpy slice `a` on an axis of length
`n`: negative indices count from the end, then the result is clamped to
`[0, n]`. -/
def normIdx (n : ℕ) (a : ℤ) : ℕ :=
  if a < 0 then ((n : ℤ) + a).toNat else min a.toNat n

/-- Index list selected by the basic numpy slice `arr[a:b]` on an axis of
length `n`. -/
def sliceIdx (n : ℕ) (a b : ℤ) : List ℕ :=
  (List.range (normIdx n b - normIdx n a)).map (fun i => i + normIdx n a)

/-- Row-major list of the positions of `True` entries of an `H × W`
boolean array, as produced by `numpy.where` (computable version). -/
def wherePoints (H W : ℕ) (p : ℕ → ℕ → Bool) : List (ℕ × ℕ) :=
  (List.range H).flatMap (fun r => ((List.range W).filter (fun c => p r c)).map (fun c => (r, c)))

open Classical in
/-- Row-major list of the positions satisfying a (possibly undecidable)
pixel predicate; the propositional counterpart of `wherePoints`, needed
because the smoothed array is real-valued. -/
noncomputable def wherePointsP (H W : ℕ) (p : ℕ → ℕ → Prop) : List (ℕ × ℕ) :=
  (List.range H).flatMap (fun r => ((List.range W).filter (fun c => decide (p r c))).map (fun c => (r, c)))

/-- A single-channel image: dimensions plus a total valuation function
(only the values at `[0,H) × [0,W)` are meaningful). -/
structure RImage where
  H : ℕ
  W : ℕ
  val : ℤ → ℤ → ℝ

/-- Offsets of the 9-tap Gaussian kernel (`radius = int(4.0*1 + 0.5) = 4`). -/
def gKernelOffsets : List ℤ := [-4, -3, -2, -1, 0, 1, 2, 3, 4]

/-- Unnormalised Gaussian weight `exp(-k²/2)` (sigma = 1), as computed by
`scipy.ndimage._gaussian_kernel1d`. -/
noncomputable def gWeight (k : ℤ) : ℝ := Real.exp (-(k : ℝ) ^ 2 / 2)

/-- Normalisation constant of the Gaussian kernel. -/
noncomputable def gNorm : ℝ := (gKernelOffsets.map gWeight).sum

/-- Normalised Gaussian kernel weight. -/
noncomputable def gw (k : ℤ) : ℝ := gWeight k / gNorm

/-- One-dimensional Gaussian correlation along axis 0 (rows), boundary
mode `reflect`. -/
noncomputable def correlateRows (img : RImage) : RImage :=
  ⟨img.H, img.W, fun r c =>
    (gKernelOffsets.map (fun k => gw k * img.val (reflectIdx img.H (r - k)) c)).sum⟩

/-- One-dimensional Gaussian correlation along axis 1 (columns), boundary
mode `reflect`. -/
noncomputable def correlateCols (img : RImage) : RImage :=
  ⟨img.H, img.W, fun r c =>
    (gKernelOffsets.map (fun k => gw k * img.val r (reflectIdx img.W (c - k)))).sum⟩

/-- `scipy.ndimage.gaussian_filter(arr, sigma=1)`: the separable Gaussian
smoothing, applied along axis 0 then axis 1. -/
noncomputable def gaussian_filter (img : RImage) : RImage :=
  correlateCols (correlateRows img)

/-- Per-axis offsets of the erosion window for `size=(4,4)`, origin 0. -/
def offsetsE : List ℤ := [-2, -1, 0, 1]

/-- Per-axis offsets of the dilation window for `size=(4,4)` (mirrored). -/
def offsetsD : List ℤ := [-1, 0, 1, 2]

/-- Values of `img` over the square window `offs × offs` around `(r, c)`,
with reflected boundary handling. -/
def windowVals (img : RImage) (offs : List ℤ) (r c : ℤ) : List ℝ :=
  offs.flatMap (fun di =>
    offs.map (fun dj => img.val (reflectIdx img.H (r + di)) (reflectIdx img.W (c + dj))))

/-- Greyscale erosion (`scipy.ndimage.grey_erosion`, `size=(4,4)`) at one
pixel: the window minimum.  The fold is seeded with the centre value,
which lies inside the window (`(0,0) ∈ offsetsE × offsetsE`), so the
result is exactly the window minimum. -/
noncomputable def erodedAt (img : RImage) (r c : ℤ) : ℝ :=
  (windowVals img offsetsE r c).foldr min (img.val (reflectIdx img.H r) (reflectIdx img.W c))

/-- Greyscale dilation (`scipy.ndimage.grey_dilation`, `size=(4,4)`) at one
pixel: the window maximum (seeded with the centre value, which the dilation
window also contains). -/
noncomputable def dilatedAt (img : RImage) (r c : ℤ) : ℝ :=
  (windowVals img offsetsD r c).foldr max (img.val (reflectIdx img.H r) (reflectIdx img.W c))

/-- The boolean array `x1 = (arr == eroded)`. -/
def x1Arr (img : RImage) : ℕ → ℕ → Prop :=
  fun r c => img.val r c = erodedAt img r c

/-- The boolean array `x2 = (arr < dilated - .01)`. -/
def x2Arr (img : RImage) : ℕ → ℕ → Prop :=
  fun r c => img.val r c < dilatedAt img r c - 1 / 100

/-- `np.logical_and` of two boolean arrays. -/
def andArr (a b : ℕ → ℕ → Prop) : ℕ → ℕ → Prop := fun r c => a r c ∧ b r c

/-- The boolean multiply `x = x * mask` (identity when no mask is given). -/
def maskMul (a : ℕ → ℕ → Prop) (mask : Option (ℕ → ℕ → Bool)) : ℕ → ℕ → Prop :=
  match mask with
  | some m => fun r c => a r c ∧ m r c = true
  | none => a

/-- The border zeroing
`x[:RADIUS,:] = x[-RADIUS:,:] = x[:,:RADIUS] = x[:,-RADIUS:] = False`
(for a positive radius): pixels in the band of width `rad` along any edge
become `False`.  Subtraction is ℕ-truncated, which matches numpy whenever
`rad ≤ dim`, and when `rad > dim` the slices cover the whole axis and no
pixel survives, as here. -/
def zeroBorder (rad H W : ℕ) (a : ℕ → ℕ → Prop) : ℕ → ℕ → Prop :=
  fun r c => if r < rad ∨ H - rad ≤ r ∨ c < rad ∨ W - rad ≤ c then False else a r c

/-- `detect_local_minima(arr, mask)` from the source: dilation/erosion,
`x1`, `x2`, `np.logical_and`, mask multiply, border zeroing, then
`np.where` in row-major order.  `rad` is the module constant `RADIUS`,
passed explicitly so that the border theorems can be stated for every
positive radius. -/
noncomputable def detect_local_minima (rad : ℕ) (img : RImage)
    (mask : Option (ℕ → ℕ → Bool)) : List (ℕ × ℕ) :=
  wherePointsP img.H img.W
    (zeroBorder rad img.H img.W (maskMul (andArr (x1Arr img) (x2Arr img)) mask))

/-- Mask condition in predicate form: the pixel survives the mask
multiply. -/
def maskOK (mask : Option (ℕ → ℕ → Bool)) (r c : ℕ) : Prop :=
  match mask with
  | some m => m r c = true
  | none => True

/-- Candidate condition of the claim/spec wording: the pixel value equals
the erosion and is strictly more than 0.01 below the dilation, and the
pixel survives the mask. -/
def candidateAt (img : RImage) (mask : Option (ℕ → ℕ → Bool)) (r c : ℕ) : Prop :=
  img.val r c = erodedAt img r c ∧
    img.val r c < dilatedAt img r c - 1 / 100 ∧ maskOK mask r c

/-- Interior condition: at least `rad` pixels away from all four edges. -/
def interiorAt (rad H W r c : ℕ) : Prop :=
  rad ≤ r ∧ r < H - rad ∧ rad ≤ c ∧ c < W - rad

/-- The candidate list computed inside `local_minima_generate_points`:
`detect_local_minima` applied to the sigma-1 Gaussian smoothing of the
image (`fuzzy`). -/
noncomputable def proposePoints (img : RImage) (mask : Option (ℕ → ℕ → Bool)) :
    List (ℕ × ℕ) :=
  detect_local_minima RADIUS (gaussian_filter img) mask

/-- The patch `arr[x-RADIUS:x+RADIUS, y-RADIUS:y+RADIUS]` extracted for a
candidate, with faithful numpy slice clamping. -/
noncomputable def patchAt (img : RImage) (x y : ℕ) : List (List ℝ) :=
  (sliceIdx img.H ((x : ℤ) - RADIUS) ((x : ℤ) + RADIUS)).map (fun (i : ℕ) =>
    (sliceIdx img.W ((y : ℤ) - RADIUS) ((y : ℤ) + RADIUS)).map (fun (j : ℕ) =>
      img.val ((i : ℕ) : ℤ) ((j : ℕ) : ℤ)))

/-- `local_minima_generate_points(arr, mask)`: smooth, detect, then
`assert minima.shape[0] > 0` (an empty candidate list raises — the spec's
`NoCandidatesError`), and finally extract one `SIZE × SIZE` patch from the
original array per candidate. -/
noncomputable def local_minima_generate_points (img : RImage)
    (mask : Option (ℕ → ℕ → Bool)) :
    Except Unit (List (List (List ℝ)) × List (ℕ × ℕ)) :=
  let pts := proposePoints img mask
  if pts = [] then Except.error ()
  else Except.ok (pts.map (fun p => patchAt img p.1 p.2), pts)

/-- The candidate set exactly as claim C1 words it: all pixels of the
sigma-1 Gaussian-smoothed array whose value equals the 4×4 erosion and is
strictly more than 0.01 below the 4×4 dilation, restricted to the mask
when one is supplied, in row-major order — with no border restriction. -/
noncomputable def claimedSetC1 (img : RImage) (mask : Option (ℕ → ℕ → Bool)) :
    List (ℕ × ℕ) :=
  wherePointsP (gaussian_filter img).H (gaussian_filter img).W
    (fun r c => candidateAt (gaussian_filter img) mask r c)

/-- The candidate set of claim C1 amended with the border restriction the
source imposes: additionally every returned pixel lies at least `RADIUS`
away from each image edge. -/
noncomputable def claimedSetC1Amended (img : RImage) (mask : Option (ℕ → ℕ → Bool)) :
    List (ℕ × ℕ) :=
  wherePointsP (gaussian_filter img).H (gaussian_filter img).W
    (fun r c => candidateAt (gaussian_filter img) mask r c ∧
      interiorAt RADIUS (gaussian_filter img).H (gaussian_filter img).W r c)

/-- Column profile of the concrete 9×9 test image: intensity 100
everywhere except a dark (0) column at index 4. -/
noncomputable def dipProfile (c : ℤ) : ℝ := if c = 4 then 0 else 100

/-- Concrete 9×9 image, constant along rows, with one dark column: its
smoothing has a strict column minimum along the whole of column 4, so the
source's border zeroing visibly removes candidates. -/
noncomputable def dipImg : RImage := ⟨9, 9, fun _ c => dipProfile c⟩

/-- Concrete flat 9×9 image: its smoothing is flat, so the contrast test
`x2` fails everywhere and the proposal stage finds no candidate. -/
noncomputable def constImg : RImage := ⟨9, 9, fun _ _ => (100 : ℝ)⟩

/-- Shorthand for the smoothed value of `dipImg` at a column. -/
noncomputable def sCol (c : ℤ) : ℝ := 100 - 100 * gw (c - 4)

/-! ## Normalisation (count_section, lines 204-206) -/

/-- Minimum of a list seeded with its head (`numpy` `arr.min()`; the empty
case, on which numpy raises, takes the supplied default and is excluded by
hypothesis in the theorems). -/
def foldMinL {α : Type} [LinearOrder α] (l : List α) (d : α) : α :=
  match l with
  | [] => d
  | a :: t => t.foldl min a

/-- Maximum of a list seeded with its head (`numpy` `arr.max()`). -/
def foldMaxL {α : Type} [LinearOrder α] (l : List α) (d : α) : α :=
  match l with
  | [] => d
  | a :: t => t.foldl max a

/-- `arr = (arr - arr.min()) / (arr.max() - arr.min()); arr = (arr * 255).astype(np.uint8)`.
The Python lines raise nothing, so the translation always returns `some`
(a `none` result would model an uncaught exception).  For a flat image
numpy divides 0 by 0 with only a warning, producing NaN, and the uint8
cast of NaN yields 0 on the supported platforms; in ℚ, `0 / 0 = 0` gives
the same all-zero array.  The uint8 cast truncates toward zero, which on
the nonnegative values produced here is the floor. -/
def normalizeCode (rows : List (List ℚ)) : Option (List (List ℕ)) :=
  let mn := foldMinL (rows.flatMap id) 0
  let mx := foldMaxL (rows.flatMap id) 0
  some (rows.map (fun row => row.map (fun v => (⌊(v - mn) / (mx - mn) * 255⌋).toNat)))

/-! ## Tabular output (`np.savetxt(output_csv, true_cells, delimiter=",")`) -/

/-- Decimal rendering of an integer in Python `'%.18e'` format, the
default `np.savetxt` cell format: first significant digit, 18 fractional
digits, two-digit (or longer) exponent.  Exact for magnitudes below 10^19,
far above any pixel coordinate. -/
def fmt18e (z : ℤ) : String :=
  if z = 0 then "0.000000000000000000e+00"
  else
    let s := toString z.natAbs
    let sign := if z < 0 then "-" else ""
    let e := s.length - 1
    sign ++ s.take 1 ++ "." ++ (s.drop 1 ++ String.mk (List.replicate (18 - (s.length - 1)) '0')).take 18
      ++ "e+" ++ (if e < 10 then "0" else "") ++ toString e

/-- One `np.savetxt` row: the two columns in `'%.18e'` format joined by
the `","` delimiter, terminated by the default newline. -/
def savetxtRow (r c : ℤ) : String := fmt18e r ++ "," ++ fmt18e c ++ "\n"

/-- The full text written by `np.savetxt(output_csv, true_cells, delimiter=",")`
(default header/footer are empty, so the file is exactly the rows). -/
def savetxtContent (cells : List (ℤ × ℤ)) : String :=
  String.join (cells.map (fun p => savetxtRow p.1 p.2))

/-- Rendering of the rows with each coordinate written as a plain decimal
integer — the format C8 asserts. -/
def intContent (cells : List (ℤ × ℤ)) : String :=
  String.join (cells.map (fun p => toString p.1 ++ "," ++ toString p.2 ++ "\n"))

/-! ## Verification threshold (`true_cells = COMs[output[:, 0] > 0.80, :]`) -/

/-- Selection of the accepted candidates: keep exactly the proposed
centres whose classifier score is strictly greater than 0.80. -/
def selectTrueCells (pts : List (ℕ × ℕ)) (scores : List ℚ) : List (ℤ × ℤ) :=
  ((pts.zip scores).filter (fun q => (4 : ℚ) / 5 < q.2)).map
    (fun q => ((q.1.1 : ℤ), (q.1.2 : ℤ)))

/-! ## Raster renderer (`CreatePNG`) -/

/-- Membership test of the radius-3 disk stencil `symbol_shape` (a 7×7
boolean array with `(x-3)² + (y-3)² ≤ 3²`). -/
def symbolShape (a b : ℤ) : Bool := decide ((a - 3) ^ 2 + (b - 3) ^ 2 ≤ 9)

/-- Mutable state of `CreatePNG`: the boolean canvas `self.arr` of shape
`artboard_size_xy` (image shape, row-major). -/
structure PNGState where
  H : ℕ
  W : ℕ
  canvas : ℕ → ℕ → Bool

/-- Fresh all-false canvas (`np.zeros(shape=(x, y), dtype=bool)`). -/
def initPNG (H W : ℕ) : PNGState := ⟨H, W, fun _ _ => false⟩

/-- `CreatePNG.add_symbol(location_xy)`: reads `y, x = location_xy`, then
ors the 7×7 stencil into `arr[x-3:x+4, y-3:y+4]`.  When the slice is
clipped by a canvas edge the shapes mismatch, numpy raises `ValueError`,
and the `except` clause ignores the symbol — hence the in-bounds guard. -/
def addSymbolPNG (st : PNGState) (loc : ℤ × ℤ) : PNGState :=
  let x := loc.2
  let y := loc.1
  if 3 ≤ x ∧ x + 4 ≤ (st.H : ℤ) ∧ 3 ≤ y ∧ y + 4 ≤ (st.W : ℤ) then
    ⟨st.H, st.W, fun i j =>
      st.canvas i j ||
        (decide (x - 3 ≤ (i : ℤ)) && decide ((i : ℤ) < x + 4) &&
         decide (y - 3 ≤ (j : ℤ)) && decide ((j : ℤ) < y + 4) &&
         symbolShape ((i : ℤ) - (x - 3)) ((j : ℤ) - (y - 3)))⟩
  else st

/-- Canvas after adding one symbol per accepted candidate; `count_section`
passes `location_xy = (cells[i][1], cells[i][0])` (column first). -/
def renderPNGCanvas (H W : ℕ) (cells : List (ℤ × ℤ)) : PNGState :=
  cells.foldl (fun st p => addSymbolPNG st (p.2, p.1)) (initPNG H W)

/-- The RGBA file written by `CreatePNG.output` with `downscale=1` (the
nearest-neighbour resize to the unchanged shape is the identity): fixed
RGB colour, alpha = canvas × 255. -/
structure PNGFile where
  H : ℕ
  W : ℕ
  color : List ℕ
  alpha : ℕ → ℕ → ℕ

/-- `CreatePNG.output()` content. -/
def outputPNG (st : PNGState) (color : List ℕ) : PNGFile :=
  ⟨st.H, st.W, color, fun i j => if st.canvas i j then 255 else 0⟩

/-! ## Vector renderer (`CreateSVG`) -/

/-- Opening string of the SVG document; `x = artboard_size_xy[1]`,
`y = artboard_size_xy[0]` (axes swapped relative to the raster). -/
def svgHeaderStr (x y : ℕ) : String :=
  "<svg id=\"_Boutons\" data-name=\"Boutons\" xmlns=\"http://www.w3.org/2000/svg\" viewBox=\"0 0 "
    ++ toString x ++ " " ++ toString y
    ++ "\"><defs><style>.cls-1\x7bfill:black;stroke:black;\x7d</style></defs>"

/-- One `<circle>` element appended by `CreateSVG.add_symbol`:
`cx = location_xy[0]`, `cy = location_xy[1]`, radius 1. -/
def circleElem (cx cy : ℤ) : String :=
  "<circle class=\"cls-1\" cx=\"" ++ toString cx ++ "\" cy=\"" ++ toString cy ++ "\" r=\"1\"/>"

/-- Mutable state of `CreateSVG`: the accumulated string list. -/
structure SVGState where
  strings : List String

/-- `CreateSVG.__init__` for an image of shape `(H, W)`. -/
def initSVG (H W : ℕ) : SVGState := ⟨[svgHeaderStr W H]⟩

/-- `CreateSVG.add_symbol(location_xy)`. -/
def addSymbolSVG (st : SVGState) (loc : ℤ × ℤ) : SVGState :=
  ⟨st.strings ++ [circleElem loc.1 loc.2]⟩

/-- `CreateSVG.output()`: join the accumulated strings and the closing tag. -/
def outputSVG (st : SVGState) : String := String.join (st.strings ++ ["</svg>"])

/-- The SVG file written for an accepted-candidate list; `count_section`
adds the symbols in list order with `location_xy = (cells[i][1], cells[i][0])`. -/
def svgFileContent (H W : ℕ) (cells : List (ℤ × ℤ)) : String :=
  outputSVG (cells.foldl (fun st p => addSymbolSVG st (p.2, p.1)) (initSVG H W))

/-! ## Section pipeline (`count_section`, from the candidate/cache branch on) -/

/-- `OutputFileType`: the user-selected output formats. -/
structure OutputFileType where
  svg : Bool
  csv : Bool
  png : Bool

/-- `OutputFileType.any`. -/
def OutputFileType.any (o : OutputFileType) : Bool := o.svg || o.csv || o.png

/-- A rational-valued image (the decoded mask file after `file_to_array`). -/
structure QImage where
  H : ℕ
  W : ℕ
  val : ℤ → ℤ → ℚ

/-- Files of one section directory that the pipeline branch reads or
writes.  The CSV file is modelled by the list of coordinate rows it
records (its textual form is `savetxtContent`). -/
structure SectionFS where
  csvData : Option (List (ℤ × ℤ))
  maskFile : Option QImage
  svgFile : Option String
  pngFile : Option PNGFile

/-- Result of processing one section. -/
inductive SectionResult where
  /-- `oft.any()` was false: the whole branch is skipped. -/
  | noOutput
  /-- Mask and image shapes disagree: print and `return` (the spec's
  `ShapeMismatchError`). -/
  | shapeMismatch
  /-- The `assert minima.shape[0] > 0` failed (the spec's
  `NoCandidatesError`); the uncaught `AssertionError` aborts the program. -/
  | noCandidates
  /-- Rendering completed with this accepted-candidate list. -/
  | done (cells : List (ℤ × ℤ))
deriving DecidableEq

/-- Outcome of `count_section` on one section: result, resulting files,
and whether `model.predict` / the proposal stage were reached. -/
structure SectionOutcome where
  result : SectionResult
  fs : SectionFS
  classifierCalled : Bool
  proposalRan : Bool

/-- `mask = file_to_array(mask_file_path); mask = mask > 128` from
`generate_border_and_mask` (the derived border ring is unused by
`count_section`). -/
def thresholdMask (m : QImage) : ℕ → ℕ → Bool :=
  fun r c => decide ((128 : ℚ) < m.val (r : ℤ) (c : ℤ))

/-- Rendering tail of `count_section`: SVG only when requested and the
file does not already exist; PNG and CSV unconditionally when requested. -/
def renderPhase (arr : RImage) (fs : SectionFS) (oft : OutputFileType) (color : List ℕ)
    (cells : List (ℤ × ℤ)) (cls prop : Bool) : SectionOutcome :=
  { result := SectionResult.done cells
    fs := { csvData := if oft.csv then some cells else fs.csvData
            maskFile := fs.maskFile
            svgFile := if oft.svg && fs.svgFile.isNone
                       then some (svgFileContent arr.H arr.W cells) else fs.svgFile
            pngFile := if oft.png
                       then some (outputPNG (renderPNGCanvas arr.H arr.W cells) color)
                       else fs.pngFile }
    classifierCalled := cls
    proposalRan := prop }

/-- `count_section` from the `if oft.any():` branch on (`arr` is the
already loaded and normalised image).  With a pre-existing CSV the cells
are reloaded through `np.loadtxt(...).astype(np.int16)`; otherwise the
optional mask is loaded and shape-checked, the proposal stage runs (its
failed assert aborts), the classifier scores the patch batch once, and
the strict 0.80 threshold selects the accepted cells. -/
noncomputable def count_section_core (arr : RImage) (fs : SectionFS) (oft : OutputFileType)
    (classifier : List (List (List ℝ)) → List ℚ) (color : List ℕ) : SectionOutcome :=
  if oft.any then
    match fs.csvData with
    | some rows =>
        renderPhase arr fs oft color (rows.map (fun p => (toInt16 p.1, toInt16 p.2))) false false
    | none =>
        let maskOpt : Option (Option (ℕ → ℕ → Bool)) :=
          match fs.maskFile with
          | some m => if (arr.H, arr.W) ≠ (m.H, m.W) then none
                      else some (some (thresholdMask m))
          | none => some none
        match maskOpt with
        | none => ⟨SectionResult.shapeMismatch, fs, false, false⟩
        | some mask =>
            match local_minima_generate_points arr mask with
            | Except.error _ => ⟨SectionResult.noCandidates, fs, false, true⟩
            | Except.ok (X, pts) =>
                renderPhase arr fs oft color (selectTrueCells pts (classifier X)) true true
  else ⟨SectionResult.noOutput, fs, false, false⟩

/-- `count_brain`: process the section directories in order.  A section
whose proposal assert fails raises an uncaught `AssertionError` and kills
the batch; every other per-section failure returns normally and the loop
continues with the next section. -/
noncomputable def count_brain (secs : List (RImage × SectionFS)) (oft : OutputFileType)
    (classifier : List (List (List ℝ)) → List ℚ) (color : List ℕ) : List SectionOutcome :=
  match secs with
  | [] => []
  | s :: rest =>
      let o := count_section_core s.1 s.2 oft classifier color
      if o.result = SectionResult.noCandidates then [o]
      else o :: count_brain rest oft classifier color

/-! ## Helper lemmas -/

lemma foldr_min_le_of_mem {l : List ℝ} {a x : ℝ} (h : x ∈ l) : l.foldr min a ≤ x := by
  induction l with
  | nil => cases h
  | cons b t ih =>
      rcases List.mem_cons.mp h with h1 | h2
      · exact h1 ▸ min_le_left _ _
      · exact le_trans (min_le_right _ _) (ih h2)

lemma le_foldr_min {l : List ℝ} {a x : ℝ} (ha : x ≤ a) (h : ∀ y ∈ l, x ≤ y) :
    x ≤ l.foldr min a := by
  induction l with
  | nil => exact ha
  | cons b t ih =>
      exact le_min (h b (List.mem_cons_self b t)) (ih fun y hy => h y (List.mem_cons_of_mem _ hy))

lemma foldr_max_ge_of_mem {l : List ℝ} {a x : ℝ} (h : x ∈ l) : x ≤ l.foldr max a := by
  induction l with
  | nil => cases h
  | cons b t ih =>
      rcases List.mem_cons.mp h with h1 | h2
      · exact h1 ▸ le_max_left _ _
      · exact le_trans (ih h2) (le_max_right _ _)

lemma foldr_max_le {l : List ℝ} {a x : ℝ} (ha : a ≤ x) (h : ∀ y ∈ l, y ≤ x) :
    l.foldr max a ≤ x := by
  induction l with
  | nil => exact ha
  | cons b t ih =>
      exact max_le (h b (List.mem_cons_self b t)) (ih fun y hy => h y (List.mem_cons_of_mem _ hy))

lemma flatMap_congr {α β : Type} {l : List α} {f g : α → List β}
    (h : ∀ a ∈ l, f a = g a) : l.flatMap f = l.flatMap g := by
  induction l with
  | nil => rfl
  | cons b t ih =>
      simp only [List.flatMap_cons]
      rw [h b (List.mem_cons_self b t), ih fun a ha => h a (List.mem_cons_of_mem _ ha)]

open Classical in
lemma wherePointsP_eq_wherePoints (H W : ℕ) (p : ℕ → ℕ → Prop) (q : ℕ → ℕ → Bool)
    (h : ∀ r c, r < H → c < W → (p r c ↔ q r c = true)) :
    wherePointsP H W p = wherePoints H W q := by
  unfold wherePointsP wherePoints
  refine flatMap_congr fun r hr => ?_
  have hr9 : r < H := List.mem_range.mp hr
  have : ((List.range W).filter fun c => decide (p r c)) =
      ((List.range W).filter fun c => q r c) := by
    refine List.filter_congr fun c hc => ?_
    have hc9 : c < W := List.mem_range.mp hc
    cases hq : q r c
    · exact decide_eq_false fun hp => absurd ((h r c hr9 hc9).mp hp) (by simp [hq])
    · exact decide_eq_true ((h r c hr9 hc9).mpr hq)
  rw [this]

open Classical in
lemma mem_wherePointsP {H W : ℕ} {p : ℕ → ℕ → Prop} {pt : ℕ × ℕ} :
    pt ∈ wherePointsP H W p ↔ pt.1 < H ∧ pt.2 < W ∧ p pt.1 pt.2 := by
  obtain ⟨r, c⟩ := pt
  simp only [wherePointsP, List.mem_flatMap, List.mem_map, List.mem_filter, List.mem_range]
  constructor
  · rintro ⟨r', hr', ⟨c', ⟨hc', hp⟩, heq⟩⟩
    injection heq with h1 h2
    subst h1; subst h2
    exact ⟨hr', hc', of_decide_eq_true hp⟩
  · rintro ⟨hr, hc, hp⟩
    exact ⟨r, hr, c, ⟨hc, decide_eq_true hp⟩, rfl⟩

lemma map_congr' {α β : Type} {l : List α} {f g : α → β}
    (h : ∀ a ∈ l, f a = g a) : l.map f = l.map g := by
  induction l with
  | nil => rfl
  | cons b t ih =>
      simp only [List.map_cons]
      rw [h b (List.mem_cons_self b t), ih fun a ha => h a (List.mem_cons_of_mem _ ha)]

lemma reflect_range (z : ℤ) (h1 : -9 ≤ z) (h2 : z < 18) :
    0 ≤ reflectIdx 9 z ∧ reflectIdx 9 z < 9 := by
  unfold reflectIdx
  split_ifs <;> omega

lemma reflect_id (z : ℤ) (h1 : 0 ≤ z) (h2 : z < 9) : reflectIdx 9 z = z := by
  unfold reflectIdx
  split_ifs <;> omega

/-! ## Gaussian kernel facts -/

lemma gNorm_eq : gNorm = gWeight (-4) + gWeight (-3) + gWeight (-2) + gWeight (-1) +
    gWeight 0 + gWeight 1 + gWeight 2 + gWeight 3 + gWeight 4 := by
  simp [gNorm, gKernelOffsets]
  ring

lemma gNorm_pos : 0 < gNorm := by
  rw [gNorm_eq]
  unfold gWeight
  positivity

lemma gw_sum : gw (-4) + gw (-3) + gw (-2) + gw (-1) + gw 0 + gw 1 + gw 2 + gw 3 + gw 4 = 1 := by
  have h : gNorm ≠ 0 := ne_of_gt gNorm_pos
  simp only [gw, div_add_div_same]
  rw [← gNorm_eq]
  exact div_self h

lemma gw_pos (k : ℤ) : 0 < gw k := by
  unfold gw gWeight
  exact div_pos (Real.exp_pos _) gNorm_pos

lemma gw_strict {a b : ℤ} (h : ((a : ℝ)) ^ 2 < ((b : ℝ)) ^ 2) : gw b < gw a := by
  unfold gw gWeight
  exact div_lt_div_of_pos_right (Real.exp_lt_exp.mpr (by linarith)) gNorm_pos

lemma gw_sym (k : ℤ) : gw (-k) = gw k := by
  unfold gw gWeight
  push_cast
  ring_nf

lemma gWeight_le_one (k : ℤ) : gWeight k ≤ 1 := by
  unfold gWeight
  calc Real.exp (-(k : ℝ) ^ 2 / 2) ≤ Real.exp 0 :=
        Real.exp_le_exp.mpr (by nlinarith [sq_nonneg ((k : ℝ))])
    _ = 1 := Real.exp_zero

lemma gNorm_le : gNorm ≤ 9 := by
  rw [gNorm_eq]
  have h := gWeight_le_one
  linarith [h (-4), h (-3), h (-2), h (-1), h 0, h 1, h 2, h 3, h 4]

lemma gw_contrast : 1 / 100 < 100 * (gw 0 - gw 2) := by
  have hg0 : gWeight 0 = 1 := by
    unfold gWeight
    norm_num
  have he2 : Real.exp 2 > 4 := by
    have h1 := Real.exp_one_gt_d9
    have h2 : Real.exp 2 = Real.exp 1 * Real.exp 1 := by
      rw [← Real.exp_add]
      norm_num
    nlinarith
  have hg2 : gWeight 2 < 1 / 4 := by
    unfold gWeight
    have : -((2 : ℤ) : ℝ) ^ 2 / 2 = -2 := by norm_num
    rw [this, Real.exp_neg]
    rw [inv_lt_iff_one_lt_mul₀ (by positivity)]
    nlinarith
  have hpos := gNorm_pos
  have hle := gNorm_le
  unfold gw
  rw [div_sub_div_same, ← mul_div_assoc, lt_div_iff hpos]
  nlinarith

/-! ## Smoothing of the concrete images -/

lemma map_gw_mul_sum (x : ℝ) : ((gKernelOffsets.map fun k => gw k * x).sum) = x := by
  simp [gKernelOffsets]
  linear_combination x * gw_sum

lemma correlateRows_colfn (H W : ℕ) (f : ℤ → ℝ) (r c : ℤ) :
    (correlateRows ⟨H, W, fun _ c => f c⟩).val r c = f c := by
  simp only [correlateRows]
  exact map_gw_mul_sum (f c)

lemma correlateRows_dip (r c : ℤ) : (correlateRows dipImg).val r c = dipProfile c :=
  correlateRows_colfn 9 9 dipProfile r c

lemma gauss_dip_val (r c : ℤ) (h0 : 0 ≤ c) (h9 : c < 9) :
    (gaussian_filter dipImg).val r c = sCol c := by
  show (correlateCols (correlateRows dipImg)).val r c = sCol c
  simp only [correlateCols, correlateRows_dip]
  have hW : (correlateRows dipImg).W = 9 := rfl
  rw [hW]
  interval_cases c <;>
    · simp [gKernelOffsets, reflectIdx, dipProfile, sCol]
      linear_combination (100 : ℝ) * gw_sum

lemma windowVals_dip (offs : List ℤ) (hoffs : ∀ d ∈ offs, -4 ≤ d ∧ d ≤ 4)
    (r c : ℤ) (h0 : 0 ≤ c) (h9 : c < 9) :
    windowVals (gaussian_filter dipImg) offs r c =
      offs.flatMap (fun _ => offs.map (fun dj => sCol (reflectIdx 9 (c + dj)))) := by
  unfold windowVals
  refine flatMap_congr fun di hdi => ?_
  refine map_congr' fun dj hdj => ?_
  have hd := hoffs dj hdj
  have hrange := reflect_range (c + dj) (by omega) (by omega)
  have hH : (gaussian_filter dipImg).H = 9 := rfl
  have hW : (gaussian_filter dipImg).W = 9 := rfl
  rw [hH, hW]
  exact gauss_dip_val _ _ hrange.1 hrange.2

lemma dip_init (r c : ℤ) (h0 : 0 ≤ c) (h9 : c < 9) :
    (gaussian_filter dipImg).val (reflectIdx (gaussian_filter dipImg).H r)
      (reflectIdx (gaussian_filter dipImg).W c) = sCol c := by
  have hH : (gaussian_filter dipImg).H = 9 := rfl
  have hW : (gaussian_filter dipImg).W = 9 := rfl
  rw [hH, hW, reflect_id c h0 h9]
  exact gauss_dip_val _ _ h0 h9

lemma eroded_dip (r c : ℤ) (h0 : 0 ≤ c) (h9 : c < 9) :
    erodedAt (gaussian_filter dipImg) r c =
      (offsetsE.flatMap (fun _ => offsetsE.map (fun dj => sCol (reflectIdx 9 (c + dj))))).foldr
        min (sCol c) := by
  unfold erodedAt
  rw [windowVals_dip offsetsE (by intro d hd; fin_cases hd <;> norm_num) r c h0 h9,
    dip_init r c h0 h9]

lemma dilated_dip (r c : ℤ) (h0 : 0 ≤ c) (h9 : c < 9) :
    dilatedAt (gaussian_filter dipImg) r c =
      (offsetsD.flatMap (fun _ => offsetsD.map (fun dj => sCol (reflectIdx 9 (c + dj))))).foldr
        max (sCol c) := by
  unfold dilatedAt
  rw [windowVals_dip offsetsD (by intro d hd; fin_cases hd <;> norm_num) r c h0 h9,
    dip_init r c h0 h9]

lemma sCol_lt {a b : ℤ} (h : ((a : ℝ) - 4) ^ 2 < ((b : ℝ) - 4) ^ 2) : sCol a < sCol b := by
  unfold sCol
  have := gw_strict (a := a - 4) (b := b - 4) (by push_cast; nlinarith)
  linarith

lemma sCol_eq {a b : ℤ} (h : ((a : ℝ) - 4) ^ 2 = ((b : ℝ) - 4) ^ 2) : sCol a = sCol b := by
  unfold sCol gw gWeight
  have h2 : -(((a - 4 : ℤ) : ℝ)) ^ 2 / 2 = -(((b - 4 : ℤ) : ℝ)) ^ 2 / 2 := by
    push_cast
    linarith
  rw [h2]

lemma sCol_le {a b : ℤ} (h : ((a : ℝ) - 4) ^ 2 ≤ ((b : ℝ) - 4) ^ 2) : sCol a ≤ sCol b := by
  rcases lt_or_eq_of_le h with hlt | heq
  · exact le_of_lt (sCol_lt hlt)
  · exact le_of_eq (sCol_eq heq)

lemma dip_cand_iff (r c : ℕ) (_hr : r < 9) (hc : c < 9) :
    candidateAt (gaussian_filter dipImg) none r c ↔ c = 4 := by
  have h0 : (0 : ℤ) ≤ (c : ℤ) := by omega
  have h9 : ((c : ℕ) : ℤ) < 9 := by omega
  have hval : (gaussian_filter dipImg).val r c = sCol c := gauss_dip_val _ _ h0 h9
  have hE := eroded_dip r c h0 h9
  have hD := dilated_dip r c h0 h9
  constructor
  · rintro ⟨hx1, hx2, -⟩
    rw [hval, hE] at hx1
    by_contra hne
    interval_cases c
    · simp only [Nat.cast_zero] at hx1
      have hm : sCol 1 ∈ (offsetsE.flatMap
          (fun _ => offsetsE.map (fun dj => sCol (reflectIdx 9 ((0 : ℤ) + dj))))) := by
        simp [offsetsE, reflectIdx]
      have hle := foldr_min_le_of_mem (a := sCol 0) hm
      rw [← hx1] at hle
      exact absurd hle (not_le.mpr (sCol_lt (by norm_num)))
    · simp only [Nat.cast_one] at hx1
      have hm : sCol 2 ∈ (offsetsE.flatMap
          (fun _ => offsetsE.map (fun dj => sCol (reflectIdx 9 ((1 : ℤ) + dj))))) := by
        simp [offsetsE, reflectIdx]
      have hle := foldr_min_le_of_mem (a := sCol 1) hm
      rw [← hx1] at hle
      exact absurd hle (not_le.mpr (sCol_lt (by norm_num)))
    · simp only [Nat.cast_ofNat] at hx1
      have hm : sCol 3 ∈ (offsetsE.flatMap
          (fun _ => offsetsE.map (fun dj => sCol (reflectIdx 9 ((2 : ℤ) + dj))))) := by
        simp [offsetsE, reflectIdx]
      have hle := foldr_min_le_of_mem (a := sCol 2) hm
      rw [← hx1] at hle
      exact absurd hle (not_le.mpr (sCol_lt (by norm_num)))
    · simp only [Nat.cast_ofNat] at hx1
      have hm : sCol 4 ∈ (offsetsE.flatMap
          (fun _ => offsetsE.map (fun dj => sCol (reflectIdx 9 ((3 : ℤ) + dj))))) := by
        simp [offsetsE, reflectIdx]
      have hle := foldr_min_le_of_mem (a := sCol 3) hm
      rw [← hx1] at hle
      exact absurd hle (not_le.mpr (sCol_lt (by norm_num)))
    · exact hne rfl
    · simp only [Nat.cast_ofNat] at hx1
      have hm : sCol 4 ∈ (offsetsE.flatMap
          (fun _ => offsetsE.map (fun dj => sCol (reflectIdx 9 ((5 : ℤ) + dj))))) := by
        simp [offsetsE, reflectIdx]
      have hle := foldr_min_le_of_mem (a := sCol 5) hm
      rw [← hx1] at hle
      exact absurd hle (not_le.mpr (sCol_lt (by norm_num)))
    · simp only [Nat.cast_ofNat] at hx1
      have hm : sCol 4 ∈ (offsetsE.flatMap
          (fun _ => offsetsE.map (fun dj => sCol (reflectIdx 9 ((6 : ℤ) + dj))))) := by
        simp [offsetsE, reflectIdx]
      have hle := foldr_min_le_of_mem (a := sCol 6) hm
      rw [← hx1] at hle
      exact absurd hle (not_le.mpr (sCol_lt (by norm_num)))
    · simp only [Nat.cast_ofNat] at hx1
      have hm : sCol 5 ∈ (offsetsE.flatMap
          (fun _ => offsetsE.map (fun dj => sCol (reflectIdx 9 ((7 : ℤ) + dj))))) := by
        simp [offsetsE, reflectIdx]
      have hle := foldr_min_le_of_mem (a := sCol 7) hm
      rw [← hx1] at hle
      exact absurd hle (not_le.mpr (sCol_lt (by norm_num)))
    · simp only [Nat.cast_ofNat] at hx1
      have hm : sCol 6 ∈ (offsetsE.flatMap
          (fun _ => offsetsE.map (fun dj => sCol (reflectIdx 9 ((8 : ℤ) + dj))))) := by
        simp [offsetsE, reflectIdx]
      have hle := foldr_min_le_of_mem (a := sCol 8) hm
      rw [← hx1] at hle
      exact absurd hle (not_le.mpr (sCol_lt (by norm_num)))
  · rintro rfl
    refine ⟨?_, ?_, trivial⟩
    · rw [hval, hE]
      simp only [Nat.cast_ofNat]
      refine le_antisymm (le_foldr_min le_rfl ?_) ?_
      · intro y hy
        rw [List.mem_flatMap] at hy
        obtain ⟨di, hdi, hy⟩ := hy
        rw [List.mem_map] at hy
        obtain ⟨dj, hdj, rfl⟩ := hy
        fin_cases hdj
        · rw [show reflectIdx 9 ((4 : ℤ) + -2) = 2 by norm_num [reflectIdx]]
          exact sCol_le (by norm_num)
        · rw [show reflectIdx 9 ((4 : ℤ) + -1) = 3 by norm_num [reflectIdx]]
          exact sCol_le (by norm_num)
        · rw [show reflectIdx 9 ((4 : ℤ) + 0) = 4 by norm_num [reflectIdx]]
        · rw [show reflectIdx 9 ((4 : ℤ) + 1) = 5 by norm_num [reflectIdx]]
          exact sCol_le (by norm_num)
      · exact foldr_min_le_of_mem (by simp [offsetsE, reflectIdx])
    · rw [hval, hD]
      simp only [Nat.cast_ofNat]
      have hm : sCol 6 ∈ (offsetsD.flatMap
          (fun _ => offsetsD.map (fun dj => sCol (reflectIdx 9 ((4 : ℤ) + dj))))) := by
        simp [offsetsD, reflectIdx]
      have hge := foldr_max_ge_of_mem (a := sCol 4) hm
      have hq : sCol 4 < sCol 6 - 1 / 100 := by
        unfold sCol
        have h6 : (6 : ℤ) - 4 = 2 := by norm_num
        have h44 : (4 : ℤ) - 4 = 0 := by norm_num
        rw [h6, h44]
        linarith [gw_contrast]
      linarith

lemma correlateRows_const (r c : ℤ) : (correlateRows constImg).val r c = 100 :=
  correlateRows_colfn 9 9 (fun _ => 100) r c

lemma gauss_const_val (r c : ℤ) : (gaussian_filter constImg).val r c = 100 := by
  show (correlateCols (correlateRows constImg)).val r c = 100
  simp only [correlateCols, correlateRows_const]
  exact map_gw_mul_sum 100

lemma const_cand_false (r c : ℕ) : ¬ candidateAt (gaussian_filter constImg) none r c := by
  rintro ⟨-, hx2, -⟩
  have hval : (gaussian_filter constImg).val r c = 100 := gauss_const_val _ _
  have hdil : dilatedAt (gaussian_filter constImg) r c ≤ 100 := by
    unfold dilatedAt
    refine foldr_max_le (le_of_eq (gauss_const_val _ _)) ?_
    intro y hy
    simp only [windowVals] at hy
    rw [List.mem_flatMap] at hy
    obtain ⟨di, hdi, hy⟩ := hy
    rw [List.mem_map] at hy
    obtain ⟨dj, hdj, rfl⟩ := hy
    exact le_of_eq (gauss_const_val _ _)
  rw [hval] at hx2
  linarith

lemma proposePoints_dip : proposePoints dipImg none = [(4, 4)] := by
  show wherePointsP 9 9 (zeroBorder 4 9 9
    (maskMul (andArr (x1Arr (gaussian_filter dipImg)) (x2Arr (gaussian_filter dipImg))) none))
      = [(4, 4)]
  have h : ∀ r c : ℕ, r < 9 → c < 9 →
      ((zeroBorder 4 9 9 (maskMul (andArr (x1Arr (gaussian_filter dipImg))
        (x2Arr (gaussian_filter dipImg))) none)) r c ↔
        (fun r c => decide (r = 4 ∧ c = 4)) r c = true) := by
    intro r c hr hc
    simp only [zeroBorder, maskMul, andArr, decide_eq_true_eq]
    split_ifs with hb
    · constructor
      · exact False.elim
      · rintro ⟨rfl, rfl⟩
        omega
    · have hr4 : r = 4 := by omega
      have hc4 : c = 4 := by omega
      subst hr4; subst hc4
      have hcand := (dip_cand_iff 4 4 (by norm_num) (by norm_num)).mpr rfl
      obtain ⟨h1, h2, -⟩ := hcand
      exact ⟨fun _ => ⟨rfl, rfl⟩, fun _ => ⟨h1, h2⟩⟩
  rw [wherePointsP_eq_wherePoints 9 9 _ (fun r c => decide (r = 4 ∧ c = 4)) h]
  decide

lemma claimedSetC1_dip : claimedSetC1 dipImg none =
    [(0, 4), (1, 4), (2, 4), (3, 4), (4, 4), (5, 4), (6, 4), (7, 4), (8, 4)] := by
  show wherePointsP 9 9 (fun r c => candidateAt (gaussian_filter dipImg) none r c) =
    [(0, 4), (1, 4), (2, 4), (3, 4), (4, 4), (5, 4), (6, 4), (7, 4), (8, 4)]
  have h : ∀ r c : ℕ, r < 9 → c < 9 →
      (candidateAt (gaussian_filter dipImg) none r c ↔
        (fun (_ c : ℕ) => decide (c = 4)) r c = true) := by
    intro r c hr hc
    simp only [decide_eq_true_eq]
    exact dip_cand_iff r c hr hc
  rw [wherePointsP_eq_wherePoints 9 9 _ (fun _ c => decide (c = 4)) h]
  decide

lemma proposePoints_const : proposePoints constImg none = [] := by
  show wherePointsP 9 9 (zeroBorder 4 9 9
    (maskMul (andArr (x1Arr (gaussian_filter constImg)) (x2Arr (gaussian_filter constImg))) none))
      = []
  have h : ∀ r c : ℕ, r < 9 → c < 9 →
      ((zeroBorder 4 9 9 (maskMul (andArr (x1Arr (gaussian_filter constImg))
        (x2Arr (gaussian_filter constImg))) none)) r c ↔
        (fun (_ _ : ℕ) => false) r c = true) := by
    intro r c hr hc
    simp only [Bool.false_eq_true, iff_false, zeroBorder, maskMul, andArr]
    split_ifs with hb
    · exact fun f => f
    · rintro ⟨h1, h2⟩
      exact const_cand_false r c ⟨h1, h2, trivial⟩
  rw [wherePointsP_eq_wherePoints 9 9 _ (fun _ _ => false) h]
  decide

lemma lmgp_const : local_minima_generate_points constImg none = Except.error () := by
  simp [local_minima_generate_points, proposePoints_const]

lemma lmgp_dip : local_minima_generate_points dipImg none =
    Except.ok ([patchAt dipImg 4 4], [(4, 4)]) := by
  simp [local_minima_generate_points, proposePoints_dip]

section FoldOrder

variable {α : Type} [LinearOrder α]

lemma foldl_min_le_init (l : List α) (a : α) : l.foldl min a ≤ a := by
  induction l generalizing a with
  | nil => exact le_rfl
  | cons b t ih => exact le_trans (ih (min a b)) (min_le_left a b)

lemma foldl_min_le_mem {l : List α} {v : α} (a : α) (h : v ∈ l) : l.foldl min a ≤ v := by
  induction l generalizing a with
  | nil => cases h
  | cons b t ih =>
      rcases List.mem_cons.mp h with h1 | h2
      · subst h1
        exact le_trans (foldl_min_le_init t (min a v)) (min_le_right a v)
      · exact ih (min a b) h2

lemma foldl_min_choice (l : List α) (a : α) : l.foldl min a = a ∨ l.foldl min a ∈ l := by
  induction l generalizing a with
  | nil => exact Or.inl rfl
  | cons b t ih =>
      rcases ih (min a b) with h | h
      · rcases min_choice a b with hm | hm
        · exact Or.inl (by rw [List.foldl_cons, h, hm])
        · exact Or.inr (by rw [List.foldl_cons, h, hm]; exact List.mem_cons_self b t)
      · exact Or.inr (List.mem_cons_of_mem b h)

lemma foldl_max_ge_init (l : List α) (a : α) : a ≤ l.foldl max a := by
  induction l generalizing a with
  | nil => exact le_rfl
  | cons b t ih => exact le_trans (le_max_left a b) (ih (max a b))

lemma foldl_max_ge_mem {l : List α} {v : α} (a : α) (h : v ∈ l) : v ≤ l.foldl max a := by
  induction l generalizing a with
  | nil => cases h
  | cons b t ih =>
      rcases List.mem_cons.mp h with h1 | h2
      · subst h1
        exact le_trans (le_max_right a v) (foldl_max_ge_init t (max a v))
      · exact ih (max a b) h2

lemma foldl_max_choice (l : List α) (a : α) : l.foldl max a = a ∨ l.foldl max a ∈ l := by
  induction l generalizing a with
  | nil => exact Or.inl rfl
  | cons b t ih =>
      rcases ih (max a b) with h | h
      · rcases max_choice a b with hm | hm
        · exact Or.inl (by rw [List.foldl_cons, h, hm])
        · exact Or.inr (by rw [List.foldl_cons, h, hm]; exact List.mem_cons_self b t)
      · exact Or.inr (List.mem_cons_of_mem b h)

lemma foldl_max_le_bound {l : List α} {x : α} (a : α) (ha : a ≤ x) (h : ∀ v ∈ l, v ≤ x) :
    l.foldl max a ≤ x := by
  induction l generalizing a with
  | nil => exact ha
  | cons b t ih =>
      exact ih (max a b) (max_le ha (h b (List.mem_cons_self b t)))
        fun v hv => h v (List.mem_cons_of_mem _ hv)

lemma foldMinL_le {l : List α} {v : α} (d : α) (h : v ∈ l) : foldMinL l d ≤ v := by
  cases l with
  | nil => cases h
  | cons b t =>
      rcases List.mem_cons.mp h with h1 | h2
      · subst h1
        exact foldl_min_le_init t v
      · exact foldl_min_le_mem b h2

lemma foldMinL_mem {l : List α} (d : α) (h : l ≠ []) : foldMinL l d ∈ l := by
  cases l with
  | nil => exact absurd rfl h
  | cons b t =>
      rcases foldl_min_choice t b with h1 | h1
      · rw [show foldMinL (b :: t) d = t.foldl min b from rfl, h1]
        exact List.mem_cons_self b t
      · exact List.mem_cons_of_mem b h1

lemma foldMaxL_ge {l : List α} {v : α} (d : α) (h : v ∈ l) : v ≤ foldMaxL l d := by
  cases l with
  | nil => cases h
  | cons b t =>
      rcases List.mem_cons.mp h with h1 | h2
      · subst h1
        exact foldl_max_ge_init t v
      · exact foldl_max_ge_mem b h2

lemma foldMaxL_mem {l : List α} (d : α) (h : l ≠ []) : foldMaxL l d ∈ l := by
  cases l with
  | nil => exact absurd rfl h
  | cons b t =>
      rcases foldl_max_choice t b with h1 | h1
      · rw [show foldMaxL (b :: t) d = t.foldl max b from rfl, h1]
        exact List.mem_cons_self b t
      · exact List.mem_cons_of_mem b h1

lemma foldMaxL_le_bound {l : List α} {x : α} (d : α) (h : ∀ v ∈ l, v ≤ x) (hd : l = [] → d ≤ x) :
    foldMaxL l d ≤ x := by
  cases l with
  | nil => exact hd rfl
  | cons b t =>
      exact foldl_max_le_bound b (h b (List.mem_cons_self b t))
        (fun v hv => h v (List.mem_cons_of_mem _ hv))

end FoldOrder

/-! ## Bridging the array pipeline and the predicate form -/

lemma detect_pred_iff (rad : ℕ) (img : RImage) (mask : Option (ℕ → ℕ → Bool)) (r c : ℕ) :
    (zeroBorder rad img.H img.W (maskMul (andArr (x1Arr img) (x2Arr img)) mask)) r c ↔
      (candidateAt img mask r c ∧ interiorAt rad img.H img.W r c) := by
  cases mask with
  | none =>
      simp only [zeroBorder, maskMul, andArr, x1Arr, x2Arr, candidateAt, maskOK, interiorAt]
      split_ifs with hb
      · constructor
        · exact False.elim
        · rintro ⟨-, h1, h2, h3, h4⟩
          omega
      · have hI : rad ≤ r ∧ r < img.H - rad ∧ rad ≤ c ∧ c < img.W - rad := by omega
        tauto
  | some m =>
      simp only [zeroBorder, maskMul, andArr, x1Arr, x2Arr, candidateAt, maskOK, interiorAt]
      split_ifs with hb
      · constructor
        · exact False.elim
        · rintro ⟨-, h1, h2, h3, h4⟩
          omega
      · have hI : rad ≤ r ∧ r < img.H - rad ∧ rad ≤ c ∧ c < img.W - rad := by omega
        tauto

open Classical in
lemma wherePointsP_congr {H W : ℕ} {p q : ℕ → ℕ → Prop}
    (h : ∀ r c, r < H → c < W → (p r c ↔ q r c)) :
    wherePointsP H W p = wherePointsP H W q := by
  unfold wherePointsP
  refine flatMap_congr fun r hr => ?_
  have hr9 : r < H := List.mem_range.mp hr
  have : ((List.range W).filter fun c => decide (p r c)) =
      ((List.range W).filter fun c => decide (q r c)) := by
    refine List.filter_congr fun c hc => ?_
    have hc9 : c < W := List.mem_range.mp hc
    exact decide_eq_decide.mpr (h r c hr9 hc9)
  rw [this]

lemma sliceIdx_full (n x rad : ℕ) (h1 : rad ≤ x) (h2 : x + rad ≤ n) :
    sliceIdx n ((x : ℤ) - rad) ((x : ℤ) + rad) =
      (List.range (2 * rad)).map (fun i => i + (x - rad)) := by
  unfold sliceIdx
  have e1 : normIdx n ((x : ℤ) - rad) = x - rad := by
    unfold normIdx
    split_ifs <;> omega
  have e2 : normIdx n ((x : ℤ) + rad) = x + rad := by
    unfold normIdx
    split_ifs <;> omega
  rw [e1, e2]
  have e3 : x + rad - (x - rad) = 2 * rad := by omega
  rw [e3]

/-! ## Claim theorems -/

/-- C1 (amended): for every intensity image and optional mask, the
proposal stage returns exactly the pixels of the sigma-1.0
Gaussian-smoothed array whose value equals the 4×4 grayscale erosion AND
is strictly more than 0.01 below the 4×4 grayscale dilation, restricted to
mask-`True` pixels when a mask is supplied, **and further restricted to
pixels at least `RADIUS` from every image edge** (the border zeroing the
original claim omits), in row-major scan order. -/
theorem C1_propose_eq_claimed_amended (img : RImage) (mask : Option (ℕ → ℕ → Bool)) :
    proposePoints img mask = claimedSetC1Amended img mask := by
  unfold proposePoints detect_local_minima claimedSetC1Amended
  exact wherePointsP_congr fun r c hr hc =>
    detect_pred_iff RADIUS (gaussian_filter img) mask r c

/-- C1 counterexample: on the concrete 9×9 image that is 100 everywhere
except a dark column at index 4 (no mask), the smoothed array has a
candidate pixel in every row of column 4, so the set claimed by C1 is the
whole column, but `propose` returns only the single interior pixel
`(4, 4)` — the border zeroing removes the rest, refuting "returns exactly
the set". -/
theorem C1_counterexample : proposePoints dipImg none ≠ claimedSetC1 dipImg none := by
  rw [proposePoints_dip, claimedSetC1_dip]
  decide

/-- C2: every candidate returned by `propose` lies at least `RADIUS`
pixels from all four image edges, whatever the mask, and the patch sliced
as `arr[x-RADIUS:x+RADIUS, y-RADIUS:y+RADIUS]` for such a candidate is the
full, in-bounds `SIZE × SIZE` window (`SIZE = 2*RADIUS`). -/
theorem C2_border_exclusion_and_patch (img : RImage) (mask : Option (ℕ → ℕ → Bool))
    (pt : ℕ × ℕ) (h : pt ∈ proposePoints img mask) :
    (RADIUS ≤ pt.1 ∧ pt.1 < img.H - RADIUS ∧ RADIUS ≤ pt.2 ∧ pt.2 < img.W - RADIUS) ∧
    (patchAt img pt.1 pt.2).length = SIZE ∧
    (∀ row ∈ patchAt img pt.1 pt.2, row.length = SIZE) ∧
    patchAt img pt.1 pt.2 = (List.range SIZE).map (fun i =>
      (List.range SIZE).map (fun j =>
        img.val ((i + (pt.1 - RADIUS) : ℕ) : ℤ) ((j + (pt.2 - RADIUS) : ℕ) : ℤ))) := by
  have hm := mem_wherePointsP.mp h
  obtain ⟨hr, hc, hp⟩ := hm
  have hci := (detect_pred_iff RADIUS (gaussian_filter img) mask pt.1 pt.2).mp hp
  have hint := hci.2
  unfold interiorAt at hint
  have hH : (gaussian_filter img).H = img.H := rfl
  have hW : (gaussian_filter img).W = img.W := rfl
  rw [hH, hW] at hint
  obtain ⟨hx1, hx2, hy1, hy2⟩ := hint
  have hx2' : pt.1 + RADIUS ≤ img.H := by omega
  have hy2' : pt.2 + RADIUS ≤ img.W := by omega
  have hpatch : patchAt img pt.1 pt.2 = (List.range SIZE).map (fun i =>
      (List.range SIZE).map (fun j =>
        img.val ((i + (pt.1 - RADIUS) : ℕ) : ℤ) ((j + (pt.2 - RADIUS) : ℕ) : ℤ))) := by
    unfold patchAt
    rw [sliceIdx_full img.H pt.1 RADIUS hx1 hx2', sliceIdx_full img.W pt.2 RADIUS hy1 hy2',
      List.map_map]
    show (List.range (2 * RADIUS)).map _ = (List.range SIZE).map _
    rw [show SIZE = 2 * RADIUS from rfl]
    refine map_congr' fun i hi => ?_
    simp only [Function.comp_apply]
    rw [List.map_map]
    rfl
  exact ⟨⟨hx1, hx2, hy1, hy2⟩, by rw [hpatch]; simp,
    by rw [hpatch]; intro row hrow; simp at hrow; obtain ⟨i, -, rfl⟩ := hrow; simp, hpatch⟩

/-- Witness for C2: the concrete dip image's single candidate `(4, 4)`
satisfies the border bounds and yields the full 8×8 patch. -/
theorem C2_witness :
    (RADIUS ≤ 4 ∧ 4 < dipImg.H - RADIUS ∧ RADIUS ≤ 4 ∧ 4 < dipImg.W - RADIUS) ∧
    (patchAt dipImg 4 4).length = SIZE ∧
    (∀ row ∈ patchAt dipImg 4 4, row.length = SIZE) ∧
    patchAt dipImg 4 4 = (List.range SIZE).map (fun i =>
      (List.range SIZE).map (fun j =>
        dipImg.val ((i + (4 - RADIUS) : ℕ) : ℤ) ((j + (4 - RADIUS) : ℕ) : ℤ))) :=
  C2_border_exclusion_and_patch dipImg none (4, 4)
    (by rw [proposePoints_dip]; exact List.mem_singleton.mpr rfl)

lemma flatMap_map_map {α β : Type} (rows : List (List α)) (f : α → β) :
    ((rows.map (fun row => row.map f)).flatMap id) = (rows.flatMap id).map f := by
  induction rows with
  | nil => rfl
  | cons r t ih => simp [ih]

/-- C3 (amended): for a nonempty image whose maximum strictly exceeds its
minimum, the normalisation of `count_section` returns an 8-bit array whose
minimum is exactly 0 and maximum exactly 255; for a perfectly flat image
it does **not** fail — numpy performs the 0/0 rescale with only a warning
and the uint8 cast of the resulting NaNs returns the all-zero array. -/
theorem C3_normalize_amended (rows : List (List ℚ)) (hne : rows.flatMap id ≠ []) :
    ∃ out, normalizeCode rows = some out ∧
      (foldMinL (rows.flatMap id) 0 < foldMaxL (rows.flatMap id) 0 →
        foldMinL (out.flatMap id) 0 = 0 ∧ foldMaxL (out.flatMap id) 0 = 255) ∧
      (foldMinL (rows.flatMap id) 0 = foldMaxL (rows.flatMap id) 0 →
        out = rows.map (fun row => row.map (fun _ => 0))) := by
  refine ⟨_, rfl, ?_, ?_⟩
  · intro hlt
    have hflat : ((rows.map (fun row => row.map (fun v =>
        (⌊(v - foldMinL (rows.flatMap id) 0) /
          (foldMaxL (rows.flatMap id) 0 - foldMinL (rows.flatMap id) 0) * 255⌋).toNat))).flatMap id)
        = (rows.flatMap id).map (fun v =>
        (⌊(v - foldMinL (rows.flatMap id) 0) /
          (foldMaxL (rows.flatMap id) 0 - foldMinL (rows.flatMap id) 0) * 255⌋).toNat) :=
      flatMap_map_map rows _
    set mn := foldMinL (rows.flatMap id) 0 with hmn_def
    set mx := foldMaxL (rows.flatMap id) 0 with hmx_def
    set f : ℚ → ℕ := fun v => (⌊(v - mn) / (mx - mn) * 255⌋).toNat with hf_def
    have hdpos : (0 : ℚ) < mx - mn := by linarith
    have hfmn : f mn = 0 := by
      simp [hf_def]
    have hfmx : f mx = 255 := by
      have : (mx - mn) / (mx - mn) = 1 := div_self (ne_of_gt hdpos)
      simp [hf_def, this]
    have h255 : ∀ v ∈ rows.flatMap id, f v ≤ 255 := by
      intro v hv
      have h1 : mn ≤ v := foldMinL_le 0 hv
      have h2 : v ≤ mx := foldMaxL_ge 0 hv
      have h3 : (v - mn) / (mx - mn) ≤ 1 := by
        rw [div_le_one hdpos]
        linarith
      have h4 : (v - mn) / (mx - mn) * 255 ≤ 255 := by nlinarith
      have h5 : ⌊(v - mn) / (mx - mn) * 255⌋ ≤ 255 := by
        calc ⌊(v - mn) / (mx - mn) * 255⌋ ≤ ⌊(255 : ℚ)⌋ := Int.floor_le_floor h4
          _ = 255 := by norm_num
      simp only [hf_def]
      exact Int.toNat_le.mpr h5
    have hmnmem : mn ∈ rows.flatMap id := foldMinL_mem 0 hne
    have hmxmem : mx ∈ rows.flatMap id := foldMaxL_mem 0 hne
    rw [hflat]
    constructor
    · have hle : foldMinL ((rows.flatMap id).map f) 0 ≤ 0 :=
        hfmn ▸ foldMinL_le 0 (List.mem_map_of_mem f hmnmem)
      exact Nat.le_zero.mp hle
    · refine le_antisymm ?_ (hfmx ▸ foldMaxL_ge 0 (List.mem_map_of_mem f hmxmem))
      refine foldMaxL_le_bound 0 ?_ (fun _ => by norm_num)
      intro w hw
      obtain ⟨v, hv, rfl⟩ := List.mem_map.mp hw
      exact h255 v hv
  · intro heq
    refine map_congr' fun row hrow => map_congr' fun v hv => ?_
    have hvflat : v ∈ rows.flatMap id := List.mem_flatMap.mpr ⟨row, hrow, hv⟩
    have h1 : foldMinL (rows.flatMap id) 0 ≤ v := foldMinL_le 0 hvflat
    have h2 : v ≤ foldMaxL (rows.flatMap id) 0 := foldMaxL_ge 0 hvflat
    have hv_eq : v = foldMinL (rows.flatMap id) 0 := by linarith [le_of_eq heq]
    rw [← hv_eq] at *
    simp [sub_self]

/-- C3 counterexample: on the perfectly flat image `[[5,5],[5,5]]`
(`max = min`), normalisation does not fail as the claim requires — it
returns a value (the all-zero array produced by numpy's NaN-to-uint8
cast of the 0/0 rescale). -/
theorem C3_counterexample :
    foldMinL ([[5, 5], [5, 5]].flatMap id) (0 : ℚ) =
      foldMaxL ([[5, 5], [5, 5]].flatMap id) 0 ∧
    normalizeCode [[5, 5], [5, 5]] = some [[0, 0], [0, 0]] := by
  constructor
  · norm_num [foldMinL, foldMaxL]
  · simp [normalizeCode, foldMinL, foldMaxL]

/-- Witness for C3 on `[[0, 2], [1, 4]]` (max 4 > min 0). -/
theorem C3_witness :
    ∃ out, normalizeCode [[0, 2], [1, 4]] = some out ∧
      (foldMinL (([[0, 2], [1, 4]] : List (List ℚ)).flatMap id) 0 <
          foldMaxL (([[0, 2], [1, 4]] : List (List ℚ)).flatMap id) 0 →
        foldMinL (out.flatMap id) 0 = 0 ∧ foldMaxL (out.flatMap id) 0 = 255) ∧
      (foldMinL (([[0, 2], [1, 4]] : List (List ℚ)).flatMap id) 0 =
          foldMaxL (([[0, 2], [1, 4]] : List (List ℚ)).flatMap id) 0 →
        out = ([[0, 2], [1, 4]] : List (List ℚ)).map (fun row => row.map (fun _ => 0))) :=
  C3_normalize_amended [[0, 2], [1, 4]] (by decide)

/-- C4 (code bug): with a pre-existing tabular file recording the rows
`(40000, 10)` and `(5, 6)`, re-running the section does skip proposal and
the classifier, but `np.loadtxt(...).astype(np.int16)` wraps the
coordinate 40000 to −25536, so the accepted set is **not** the set
recorded in the file. -/
theorem C4_cache_int16_bug :
    ((count_section_core (⟨100, 200, fun _ _ => 0⟩ : RImage)
        ⟨some [(40000, 10), (5, 6)], none, none, none⟩
        ⟨false, true, false⟩ (fun _ => []) [255, 0, 0]).result =
      SectionResult.done [(-25536, 10), (5, 6)] ∧
     (count_section_core (⟨100, 200, fun _ _ => 0⟩ : RImage)
        ⟨some [(40000, 10), (5, 6)], none, none, none⟩
        ⟨false, true, false⟩ (fun _ => []) [255, 0, 0]).classifierCalled = false ∧
     (count_section_core (⟨100, 200, fun _ _ => 0⟩ : RImage)
        ⟨some [(40000, 10), (5, 6)], none, none, none⟩
        ⟨false, true, false⟩ (fun _ => []) [255, 0, 0]).proposalRan = false) ∧
    [((-25536 : ℤ), (10 : ℤ)), (5, 6)] ≠ [((40000 : ℤ), (10 : ℤ)), (5, 6)] := by
  constructor
  · refine ⟨?_, ?_, ?_⟩ <;> rfl
  · decide

/-- C5: verification accepts exactly the candidates with classifier score
strictly greater than 0.80; in particular the batch `[0.79, 0.80, 0.81]`
keeps exactly the third candidate (`0.80` itself is rejected). -/
theorem C5_threshold_strict :
    (∀ (pts : List (ℕ × ℕ)) (scores : List ℚ) (x : ℤ × ℤ),
      x ∈ selectTrueCells pts scores ↔
        ∃ p s, (p, s) ∈ pts.zip scores ∧ (4 : ℚ) / 5 < s ∧
          x = ((p.1 : ℤ), (p.2 : ℤ))) ∧
    (∀ p1 p2 p3 : ℕ × ℕ,
      selectTrueCells [p1, p2, p3] [79 / 100, 80 / 100, 81 / 100] =
        [((p3.1 : ℤ), (p3.2 : ℤ))]) := by
  constructor
  · intro pts scores x
    unfold selectTrueCells
    simp only [List.mem_map, List.mem_filter, decide_eq_true_eq]
    constructor
    · rintro ⟨⟨p, s⟩, ⟨hmem, hgt⟩, rfl⟩
      exact ⟨p, s, hmem, hgt, rfl⟩
    · rintro ⟨p, s, hmem, hgt, rfl⟩
      exact ⟨(p, s), ⟨hmem, hgt⟩, rfl⟩
  · intro p1 p2 p3
    unfold selectTrueCells
    norm_num

/-- C6: a mask file whose dimensions disagree with the image's makes the
section abort (the spec's `ShapeMismatchError`) before any proposal or
classifier call, with the section's files untouched; and a shape-mismatch
section does not stop the batch — `count_brain` still processes the
remaining sections. -/
theorem C6_shape_mismatch :
    (∀ (arr : RImage) (fs : SectionFS) (oft : OutputFileType)
      (classifier : List (List (List ℝ)) → List ℚ) (color : List ℕ) (m : QImage),
      oft.any = true → fs.csvData = none → fs.maskFile = some m →
      (arr.H, arr.W) ≠ (m.H, m.W) →
      (count_section_core arr fs oft classifier color).result = SectionResult.shapeMismatch ∧
      (count_section_core arr fs oft classifier color).classifierCalled = false ∧
      (count_section_core arr fs oft classifier color).proposalRan = false ∧
      (count_section_core arr fs oft classifier color).fs = fs) ∧
    (∀ (sec : RImage × SectionFS) (rest : List (RImage × SectionFS))
      (oft : OutputFileType) (classifier : List (List (List ℝ)) → List ℚ) (color : List ℕ),
      (count_section_core sec.1 sec.2 oft classifier color).result = SectionResult.shapeMismatch →
      count_brain (sec :: rest) oft classifier color =
        count_section_core sec.1 sec.2 oft classifier color ::
          count_brain rest oft classifier color) := by
  constructor
  · intro arr fs oft classifier color m hany hcsv hmask hne
    simp only [count_section_core, hany, hcsv, hmask, if_pos hne, if_true]
    exact ⟨trivial, trivial, trivial, trivial⟩
  · intro sec rest oft classifier color h
    simp only [count_brain, h]
    rfl

/-- Witness for C6: a 2×2 image with a 3×2 mask aborts with the shape
mismatch, and the one-section batch still returns its outcome through
`count_brain`. -/
theorem C6_witness :
    ((count_section_core (⟨2, 2, fun _ _ => 0⟩ : RImage)
        ⟨none, some ⟨3, 2, fun _ _ => 0⟩, none, none⟩ ⟨false, true, false⟩
        (fun _ => []) [255, 0, 0]).result = SectionResult.shapeMismatch ∧
      (count_section_core (⟨2, 2, fun _ _ => 0⟩ : RImage)
        ⟨none, some ⟨3, 2, fun _ _ => 0⟩, none, none⟩ ⟨false, true, false⟩
        (fun _ => []) [255, 0, 0]).classifierCalled = false ∧
      (count_section_core (⟨2, 2, fun _ _ => 0⟩ : RImage)
        ⟨none, some ⟨3, 2, fun _ _ => 0⟩, none, none⟩ ⟨false, true, false⟩
        (fun _ => []) [255, 0, 0]).proposalRan = false ∧
      (count_section_core (⟨2, 2, fun _ _ => 0⟩ : RImage)
        ⟨none, some ⟨3, 2, fun _ _ => 0⟩, none, none⟩ ⟨false, true, false⟩
        (fun _ => []) [255, 0, 0]).fs = ⟨none, some ⟨3, 2, fun _ _ => 0⟩, none, none⟩) ∧
    count_brain [((⟨2, 2, fun _ _ => 0⟩ : RImage),
        ⟨none, some ⟨3, 2, fun _ _ => 0⟩, none, none⟩)] ⟨false, true, false⟩
        (fun _ => []) [255, 0, 0] =
      [count_section_core (⟨2, 2, fun _ _ => 0⟩ : RImage)
        ⟨none, some ⟨3, 2, fun _ _ => 0⟩, none, none⟩ ⟨false, true, false⟩
        (fun _ => []) [255, 0, 0]] :=
  ⟨C6_shape_mismatch.1 (⟨2, 2, fun _ _ => 0⟩ : RImage)
      ⟨none, some ⟨3, 2, fun _ _ => 0⟩, none, none⟩ ⟨false, true, false⟩
      (fun _ => []) [255, 0, 0] ⟨3, 2, fun _ _ => 0⟩ rfl rfl rfl (by decide),
   C6_shape_mismatch.2 ((⟨2, 2, fun _ _ => 0⟩ : RImage),
      ⟨none, some ⟨3, 2, fun _ _ => 0⟩, none, none⟩) [] ⟨false, true, false⟩
      (fun _ => []) [255, 0, 0]
      (C6_shape_mismatch.1 (⟨2, 2, fun _ _ => 0⟩ : RImage)
        ⟨none, some ⟨3, 2, fun _ _ => 0⟩, none, none⟩ ⟨false, true, false⟩
        (fun _ => []) [255, 0, 0] ⟨3, 2, fun _ _ => 0⟩ rfl rfl rfl (by decide)).1⟩

/-- C7: the proposal stage fails (the spec's `NoCandidatesError`, from
`assert minima.shape[0] > 0`) exactly when the candidate set is empty; if
candidates exist but every classifier score is at or below 0.80, the
section completes normally with an empty accepted set. -/
theorem C7_no_candidates_iff :
    (∀ (img : RImage) (mask : Option (ℕ → ℕ → Bool)),
      local_minima_generate_points img mask = Except.error () ↔
        proposePoints img mask = []) ∧
    (∀ (arr : RImage) (fs : SectionFS) (oft : OutputFileType)
      (classifier : List (List (List ℝ)) → List ℚ) (color : List ℕ)
      (X : List (List (List ℝ))) (pts : List (ℕ × ℕ)),
      oft.any = true → fs.csvData = none → fs.maskFile = none →
      local_minima_generate_points arr none = Except.ok (X, pts) →
      (∀ s ∈ classifier X, s ≤ 4 / 5) →
      (count_section_core arr fs oft classifier color).result = SectionResult.done []) := by
  constructor
  · intro img mask
    unfold local_minima_generate_points
    by_cases hp : proposePoints img mask = [] <;> simp [hp]
  · intro arr fs oft classifier color X pts hany hcsv hmask hok hsc
    simp only [count_section_core, hany, hcsv, hmask, hok, if_true]
    have hsel : selectTrueCells pts (classifier X) = [] := by
      unfold selectTrueCells
      have hfil : (pts.zip (classifier X)).filter
          (fun q => decide ((4 : ℚ) / 5 < q.2)) = [] := by
        rw [List.filter_eq_nil_iff]
        rintro ⟨p, s⟩ hq
        have h2 := (List.of_mem_zip hq).2
        simp only [decide_eq_true_eq]
        exact not_lt.mpr (hsc s h2)
      rw [hfil]
      rfl
    simp [renderPhase, hsel]

/-- Witness for C7: the flat 9×9 image makes the proposal stage fail with
no candidates, while the dip image with a classifier scoring its single
candidate 0.5 (≤ 0.80) completes normally with an empty accepted set. -/
theorem C7_witness :
    local_minima_generate_points constImg none = Except.error () ∧
    (count_section_core dipImg ⟨none, none, none, none⟩ ⟨false, true, false⟩
      (fun _ => [(1 : ℚ) / 2]) [255, 0, 0]).result = SectionResult.done [] :=
  ⟨(C7_no_candidates_iff.1 constImg none).mpr proposePoints_const,
   C7_no_candidates_iff.2 dipImg ⟨none, none, none, none⟩ ⟨false, true, false⟩
     (fun _ => [(1 : ℚ) / 2]) [255, 0, 0] [patchAt dipImg 4 4] [(4, 4)]
     rfl rfl rfl lmgp_dip
     (by intro s hs; simp only [List.mem_singleton] at hs; rw [hs]; norm_num)⟩

/-- C8 counterexample: for the single accepted candidate `(10, 12)` the
text written by `np.savetxt` is `%.18e`-formatted scientific notation,
not the integer rendering the claim asserts. -/
theorem C8_counterexample : savetxtContent [(10, 12)] ≠ intContent [(10, 12)] := by
  decide

/-- C8 (amended): the tabular output is comma-delimited with no header and
exactly one row per accepted candidate, each row holding exactly the two
coordinates — but each value is rendered in numpy's default `%.18e`
scientific notation (numerically integral, not an integer literal). -/
theorem C8_savetxt_format :
    (∀ cells : List (ℤ × ℤ), savetxtContent cells =
      String.join (cells.map (fun p => fmt18e p.1 ++ "," ++ fmt18e p.2 ++ "\n"))) ∧
    savetxtContent [(10, 12)] = "1.000000000000000000e+01,1.200000000000000000e+01\n" ∧
    savetxtContent [(40000, 10), (-3, 6)] =
      "4.000000000000000000e+04,1.000000000000000000e+01\n-3.000000000000000000e+00,6.000000000000000000e+00\n" := by
  refine ⟨fun cells => rfl, ?_, ?_⟩ <;> decide

set_option maxRecDepth 8000 in
/-- C9: rendering the single accepted candidate `(10, 10)` on a 20×20
canvas sets exactly the pixels `(10+dx, 10+dy)` with `dx² + dy² ≤ 9` —
29 pixels in all — and the vector document holds exactly one circle
element, with `cx = 10` and `cy = 10`. -/
theorem C9_render_disk_and_svg :
    (∀ p q : Fin 20, (renderPNGCanvas 20 20 [(10, 10)]).canvas p q = true ↔
      ((p : ℤ) - 10) ^ 2 + ((q : ℤ) - 10) ^ 2 ≤ 9) ∧
    ((List.range 20).flatMap (fun i => (List.range 20).filter
      (fun j => (renderPNGCanvas 20 20 [(10, 10)]).canvas i j))).length = 29 ∧
    (addSymbolSVG (initSVG 20 20) (10, 10)).strings =
      [svgHeaderStr 20 20, circleElem 10 10] ∧
    svgFileContent 20 20 [(10, 10)] =
      svgHeaderStr 20 20 ++ circleElem 10 10 ++ "</svg>" := by
  refine ⟨?_, ?_, ?_, ?_⟩
  · decide
  · decide
  · rfl
  · decide

/-- Specification of the rendering tail: the SVG file is written only when
requested and absent, while PNG and CSV are freshly written whenever
requested. -/
lemma renderPhase_spec (arr : RImage) (fs : SectionFS) (oft : OutputFileType)
    (color : List ℕ) (cl : List (ℤ × ℤ)) (cls prop : Bool) :
    (renderPhase arr fs oft color cl cls prop).result = SectionResult.done cl ∧
    (∀ s, fs.svgFile = some s → (renderPhase arr fs oft color cl cls prop).fs.svgFile = some s) ∧
    (oft.png = true → (renderPhase arr fs oft color cl cls prop).fs.pngFile =
      some (outputPNG (renderPNGCanvas arr.H arr.W cl) color)) ∧
    (oft.csv = true → (renderPhase arr fs oft color cl cls prop).fs.csvData = some cl) := by
  refine ⟨rfl, ?_, ?_, ?_⟩
  · intro s hs
    simp [renderPhase, hs]
  · intro hp
    simp [renderPhase, hp]
  · intro hc
    simp [renderPhase, hc]

/-- C10: in any run whose section completes (`done`), a pre-existing SVG
file is left byte-for-byte unchanged — the vector renderer is skipped even
when SVG output is requested — while the raster and tabular outputs are
regenerated and overwritten whenever they are requested. -/
theorem C10_render_frame_effects (arr : RImage) (fs : SectionFS) (oft : OutputFileType)
    (classifier : List (List (List ℝ)) → List ℚ) (color : List ℕ)
    (cells : List (ℤ × ℤ)) (s : String)
    (h : (count_section_core arr fs oft classifier color).result = SectionResult.done cells) :
    (fs.svgFile = some s →
      (count_section_core arr fs oft classifier color).fs.svgFile = some s) ∧
    (oft.png = true →
      (count_section_core arr fs oft classifier color).fs.pngFile =
        some (outputPNG (renderPNGCanvas arr.H arr.W cells) color)) ∧
    (oft.csv = true →
      (count_section_core arr fs oft classifier color).fs.csvData = some cells) := by
  by_cases hany : oft.any = true
  · rcases hcsv : fs.csvData with _ | rows
    · rcases hmask : fs.maskFile with _ | m
      · rcases hlm : local_minima_generate_points arr none with e | XP
        · exfalso
          simp only [count_section_core, hany, hcsv, hmask, hlm, if_true] at h
          exact absurd h (by simp)
        · obtain ⟨X, pts⟩ := XP
          have hspec := renderPhase_spec arr fs oft color
            (selectTrueCells pts (classifier X)) true true
          simp only [count_section_core, hany, hcsv, hmask, hlm, if_true] at h ⊢
          rw [hspec.1] at h
          have hcl : selectTrueCells pts (classifier X) = cells :=
            SectionResult.done.inj h
          rw [hcl] at hspec ⊢
          exact ⟨hspec.2.1 s, hspec.2.2.1, hspec.2.2.2⟩
      · by_cases hsh : (arr.H, arr.W) ≠ (m.H, m.W)
        · exfalso
          simp only [count_section_core, hany, hcsv, hmask, if_pos hsh, if_true] at h
          exact absurd h (by simp)
        · rcases hlm : local_minima_generate_points arr (some (thresholdMask m)) with e | XP
          · exfalso
            simp only [count_section_core, hany, hcsv, hmask, if_neg hsh, hlm, if_true] at h
            exact absurd h (by simp)
          · obtain ⟨X, pts⟩ := XP
            have hspec := renderPhase_spec arr fs oft color
              (selectTrueCells pts (classifier X)) true true
            simp only [count_section_core, hany, hcsv, hmask, if_neg hsh, hlm, if_true] at h ⊢
            rw [hspec.1] at h
            have hcl : selectTrueCells pts (classifier X) = cells :=
              SectionResult.done.inj h
            rw [hcl] at hspec ⊢
            exact ⟨hspec.2.1 s, hspec.2.2.1, hspec.2.2.2⟩
    · have hspec := renderPhase_spec arr fs oft color
        (rows.map (fun p => (toInt16 p.1, toInt16 p.2))) false false
      simp only [count_section_core, hany, hcsv, if_true] at h ⊢
      rw [hspec.1] at h
      have hcl : rows.map (fun p => (toInt16 p.1, toInt16 p.2)) = cells :=
        SectionResult.done.inj h
      rw [hcl] at hspec ⊢
      exact ⟨hspec.2.1 s, hspec.2.2.1, hspec.2.2.2⟩
  · exfalso
    simp only [count_section_core, hany, if_false, Bool.false_eq_true] at h
    exact absurd h (by simp)

/-- Witness for C10: a cached section with an existing SVG file: the old
SVG content survives although SVG output is requested, while PNG and CSV
are freshly written. -/
theorem C10_witness :
    ((count_section_core (⟨20, 20, fun _ _ => 0⟩ : RImage)
        ⟨some [(5, 5)], none, some "OLD", none⟩ ⟨true, true, true⟩
        (fun _ => []) [255, 0, 0]).fs.svgFile = some "OLD") ∧
    ((count_section_core (⟨20, 20, fun _ _ => 0⟩ : RImage)
        ⟨some [(5, 5)], none, some "OLD", none⟩ ⟨true, true, true⟩
        (fun _ => []) [255, 0, 0]).fs.pngFile =
      some (outputPNG (renderPNGCanvas 20 20 [(5, 5)]) [255, 0, 0])) ∧
    ((count_section_core (⟨20, 20, fun _ _ => 0⟩ : RImage)
        ⟨some [(5, 5)], none, some "OLD", none⟩ ⟨true, true, true⟩
        (fun _ => []) [255, 0, 0]).fs.csvData = some [(5, 5)]) :=
  have h : (count_section_core (⟨20, 20, fun _ _ => 0⟩ : RImage)
      ⟨some [(5, 5)], none, some "OLD", none⟩ ⟨true, true, true⟩
      (fun _ => []) [255, 0, 0]).result = SectionResult.done [(5, 5)] := rfl
  ⟨(C10_render_frame_effects _ _ _ _ _ [(5, 5)] "OLD" h).1 rfl,
   (C10_render_frame_effects _ _ _ _ _ [(5, 5)] "OLD" h).2.1 rfl,
   (C10_render_frame_effects _ _ _ _ _ [(5, 5)] "OLD" h).2.2 rfl⟩

end BoutonCount
